import Mathlib

/-!
Verification of the Mira2mqtt navigation and region-extraction pipeline.

This file is a shallow embedding of the Python sources
`MiraDataCollector.py` and `MiraRegion.py`:

* text is modelled as `List Char`; Python string primitives (`in`,
  `split`, `replace`, `strip`, `upper`, `endswith`, `removesuffix`) are
  re-implemented with the same semantics;
* Python `float` values flowing through `clean_num_value` are modelled as
  exact decimals `Dec` (an integer mantissa and a power-of-ten exponent);
  every concrete number appearing in the claims is exactly representable,
  and `Dec.val : ℚ` gives the rational meaning;
* `re.search` for the three hard-coded patterns (temperature, energy,
  power) is modelled by dedicated leftmost-first backtracking matchers;
* side effects (VNC pointer moves, clicks, screenshots) are modelled as an
  event trace, with an oracle `ocr : ℕ → List Char` giving the text
  recognized on the n-th captured frame;
* Python `dict` is modelled as an insertion-ordered association list where
  inserting an existing key overwrites in place;
* the two sources of partiality in `process_numeric_values` — an
  `IndexError` when a region's `unit` list is shorter than the number of
  text segments, and divergence of the `maxValue` correction loop when the
  configured maximum is not positive — are modelled by an `Option` result.
-/

/-! ## Python string primitives on `List Char` -/

/-- Python `t in s`: `t` is a contiguous substring of `s` (Bool form). -/
def pyInB (t l : List Char) : Bool := decide (t <:+: l)

/-- Python `s.strip()`: remove leading and trailing whitespace. -/
def pyStrip (l : List Char) : List Char :=
  ((l.dropWhile Char.isWhitespace).reverse.dropWhile Char.isWhitespace).reverse

/-- Fuelled worker for `pyReplace`; fuel bounds the number of scanned
positions, `l.length` is always enough. -/
def pyReplaceF (p r : List Char) : ℕ → List Char → List Char
  | 0, l => l
  | _ + 1, [] => []
  | fuel + 1, a :: rest =>
    if p ≠ [] ∧ p <+: (a :: rest) then
      r ++ pyReplaceF p r fuel (List.drop p.length (a :: rest))
    else
      a :: pyReplaceF p r fuel rest

/-- Python `s.replace(p, r)`: replace every non-overlapping occurrence of
`p` (scanning left to right); replacing the empty pattern by the empty
string is the identity, as in `s.replace('', '')`. -/
def pyReplace (p r l : List Char) : List Char :=
  pyReplaceF p r l.length l

/-- Fuelled worker for `pySplitOnL`. -/
def pySplitGo (sep : List Char) : ℕ → List Char → List (List Char)
  | _, [] => [[]]
  | 0, l => [l]
  | fuel + 1, a :: rest =>
    if sep ≠ [] ∧ sep <+: (a :: rest) then
      [] :: pySplitGo sep fuel (List.drop sep.length (a :: rest))
    else
      match pySplitGo sep fuel rest with
      | [] => [[a]]
      | s :: ss => (a :: s) :: ss

/-- Python `s.split(sep)` for a non-empty separator. -/
def pySplitOnL (sep l : List Char) : List (List Char) :=
  pySplitGo sep l.length l

/-- Python `s.split(c)` for a single-character separator. -/
def pySplitChar (c : Char) : List Char → List (List Char)
  | [] => [[]]
  | a :: rest =>
    if a = c then
      [] :: pySplitChar c rest
    else
      match pySplitChar c rest with
      | [] => [[a]]
      | s :: ss => (a :: s) :: ss

/-- ASCII uppercasing of one character (the only case `MiraRegion` needs:
comparisons against the literals `0WW` and `0W`). -/
def asciiUpper (c : Char) : Char :=
  if 'a' ≤ c ∧ c ≤ 'z' then Char.ofNat (c.toNat - 32) else c

/-- Python `s.upper()` restricted to ASCII letters. -/
def pyUpper (l : List Char) : List Char := l.map asciiUpper

/-- Python `s.endswith(p)`. -/
def pyEndsWith (p l : List Char) : Bool := decide (p <:+ l)

/-- Python `s.removesuffix(p)` (drop `p` when it is a suffix). -/
def pyRemoveSuffix (p l : List Char) : List Char :=
  if p <:+ l then l.take (l.length - p.length) else l

/-! ## Exact decimals standing in for Python floats -/

/-- An exact decimal number `num / 10 ^ exp`.  All floats produced by
`clean_num_value` on the inputs of interest are of this shape, and the
decimal operations performed there (×1000, /10, /10^k) are exact on it. -/
structure Dec where
  num : ℤ
  exp : ℕ
deriving DecidableEq, Repr

/-- Rational value of an exact decimal. -/
def Dec.val (d : Dec) : ℚ := (d.num : ℚ) / 10 ^ d.exp

/-- Numeric value of a digit run, most significant first. -/
def digitsToNat (l : List Char) : ℕ :=
  l.foldl (fun a c => 10 * a + (c.toNat - 48)) 0

/-- Python `float(s)` on the decimal literals that can reach
`locale.atof` in this program: optional sign, integer digits, optional
point and fraction digits (no exponent / inf / nan, which cannot occur in
the regex capture groups fed to it). `none` models `ValueError`. -/
def parseFloat (l0 : List Char) : Option Dec :=
  let l := pyStrip l0
  let sgn : ℤ := match l with
    | '-' :: _ => -1
    | _ => 1
  let l1 : List Char := match l with
    | '-' :: r => r
    | '+' :: r => r
    | _ => l
  let dI := l1.takeWhile Char.isDigit
  let r1 := l1.dropWhile Char.isDigit
  match r1 with
  | [] => if dI = [] then none else some ⟨sgn * digitsToNat dI, 0⟩
  | '.' :: r2 =>
    let dF := r2.takeWhile Char.isDigit
    if r2.dropWhile Char.isDigit ≠ [] then none
    else if dI = [] ∧ dF = [] then none
    else some ⟨sgn * (digitsToNat dI * 10 ^ dF.length + digitsToNat dF), dF.length⟩
  | _ => none

/-- Drop factors of ten shared between mantissa and exponent (what the
shortest float `repr` does to trailing fractional zeros). -/
def decNormAux : ℤ → ℕ → ℤ × ℕ
  | n, 0 => (n, 0)
  | n, e + 1 => if n % 10 = 0 then decNormAux (n / 10) e else (n, e + 1)

/-- Python `str(f)` for a float holding an exact decimal in the magnitude
range this program handles (no scientific notation): always shows a
decimal point, integral values end in `.0`, trailing fractional zeros are
dropped. -/
def decRepr (d : Dec) : List Char :=
  let ne := decNormAux d.num d.exp
  let sgn : List Char := if ne.1 < 0 then ['-'] else []
  let ds := Nat.toDigits 10 ne.1.natAbs
  if ne.2 = 0 then sgn ++ ds ++ ['.', '0']
  else if ne.2 < ds.length then
    sgn ++ ds.take (ds.length - ne.2) ++ '.' :: ds.drop (ds.length - ne.2)
  else
    sgn ++ '0' :: '.' :: (List.replicate (ne.2 - ds.length) '0') ++ ds

example : decRepr ⟨125, 1⟩ = "12.5".toList := by decide
example : decRepr ⟨125, 0⟩ = "125.0".toList := by decide
example : decRepr ⟨1250, 1⟩ = "125.0".toList := by decide
example : decRepr ⟨-5, 2⟩ = "-0.05".toList := by decide
example : decRepr ⟨0, 3⟩ = "0.0".toList := by decide
example : parseFloat "12.5".toList = some ⟨125, 1⟩ := by decide
example : parseFloat "125".toList = some ⟨125, 0⟩ := by decide
example : parseFloat "-1,5".toList = none := by decide

/-! ## Region configuration and numeric locale -/

/-- The `unit` entry of a region configuration: absent, one unit string
for all keys, or a list indexed by segment position. -/
inductive UnitCfg
  | noneU : UnitCfg
  | single (u : List Char) : UnitCfg
  | listU (l : List (List Char)) : UnitCfg
deriving DecidableEq

/-- The fields of a region configuration consulted by
`MiraRegion.clean_num_value` and `MiraRegion.process_numeric_values`
(`coordinates`, `preProcessing`, `ocrConfig` only steer image handling and
OCR, which are abstracted into the raw recognized text). -/
structure RegionCfg where
  decpt : Option (List Char)
  maxValue : Option ℚ
  mandatoryDecimalPlaces : Option ℕ
  secondaryKey : Option String
  mandatoryText : Option (List (List Char))
  unit : UnitCfg

/-- Decimal point and thousands separator resolved from the configured
locale (`set_numeric_separators`). For `de_DE` these are `,` and `.`. -/
structure NumLocale where
  real_decpt : List Char
  real_thpt : List Char

/-- `MiraRegion.clean_numeric_separators`: replace the configured decimal
point override by the locale decimal point, then strip the locale
thousands separator. -/
def cleanNumericSeparators (cfg : RegionCfg) (loc : NumLocale) (value : List Char) :
    List Char :=
  let r := match cfg.decpt with
    | some d => pyReplace d loc.real_decpt value
    | none => value
  pyReplace loc.real_thpt [] r

/-- `locale.delocalize`: strip the thousands separator, then turn the
locale decimal point into `.`. -/
def delocalize (loc : NumLocale) (l : List Char) : List Char :=
  pyReplace loc.real_decpt ['.'] (pyReplace loc.real_thpt [] l)

/-- `MiraRegion.get_numeric_value` (via `locale.atof`): parse a localized
number; a parse failure is logged and yields `0.0`. -/
def getNumericValue (loc : NumLocale) (l : List Char) : Dec :=
  (parseFloat (delocalize loc l)).getD ⟨0, 0⟩

/-- Multiply an exact decimal by a natural scale factor (the ×1000 applied
to `MWh` and `kW` readings). -/
def decScale (d : Dec) (m : ℕ) : Dec := ⟨d.num * m, d.exp⟩

/-- Divide an exact decimal by `10 ^ k` (the mandatory-decimal-places
correction). -/
def decDivPow (d : Dec) (k : ℕ) : Dec := ⟨d.num, d.exp + k⟩

/-- The suffix test chain at the top of `clean_num_value`, in source
order: `kWh`, `MWh`, `kW`, `W`, `°C`; returns the stripped string and the
scale factor applied to the parsed number, `none` when no unit matches. -/
def stripUnit (s : List Char) : Option (List Char × ℕ) :=
  if pyEndsWith "kWh".toList s then some (pyRemoveSuffix "kWh".toList s, 1)
  else if pyEndsWith "MWh".toList s then some (pyRemoveSuffix "MWh".toList s, 1000)
  else if pyEndsWith "kW".toList s then some (pyRemoveSuffix "kW".toList s, 1000)
  else if pyEndsWith "W".toList s then some (pyRemoveSuffix "W".toList s, 1)
  else if pyEndsWith "°C".toList s then some (pyRemoveSuffix "°C".toList s, 1)
  else none

/-- Existence of a power of ten pushing `v` under a positive bound. -/
theorem exists_div_le (v mx : ℚ) (h : 0 < mx) : ∃ k : ℕ, v / 10 ^ k ≤ mx := by
  obtain ⟨n, hn⟩ := pow_unbounded_of_one_lt (v / mx) (by norm_num : (1 : ℚ) < 10)
  refine ⟨n, ?_⟩
  rw [div_le_iff₀ (by positivity)]
  rw [div_lt_iff₀ h] at hn
  nlinarith

/-- The `maxValue` correction loop `while numvalue > maxValue: numvalue /= 10`
on exact decimals. With a positive bound it stops after the least number of
divisions that brings the value under the bound; with a non-positive bound
and a positive value, repeated exact division by ten never reaches the
bound and the loop diverges (`none`).  (On IEEE floats the `maxValue = 0`
case eventually terminates through gradual underflow to `0.0`; no theorem
below depends on that corner.) -/
def maxCorrect (d : Dec) (mx : ℚ) : Option Dec :=
  if d.val ≤ mx then some d
  else if h : 0 < mx then
    some (decDivPow d (Nat.find (exists_div_le d.val mx h)))
  else none

/-- `MiraRegion.clean_num_value`: separator cleanup, unit stripping and
scaling, `maxValue` magnitude correction, mandatory-decimal-places
correction, and rendering of the numeric result; a non-numeric value (no
recognized unit suffix) passes through as the cleaned string. -/
def cleanNumValue (cfg : RegionCfg) (loc : NumLocale) (value : List Char) :
    Option (List Char) :=
  let strvalue := cleanNumericSeparators cfg loc (pyStrip value)
  match stripUnit strvalue with
  | none => some strvalue
  | some (s2, mult) =>
    let nv := decScale (getNumericValue loc s2) mult
    let step1 : Option Dec := match cfg.maxValue with
      | none => some nv
      | some mx => maxCorrect nv mx
    match step1 with
    | none => none
    | some nv1 =>
      let nv2 := match cfg.mandatoryDecimalPlaces with
        | none => nv1
        | some n =>
          if (pySplitOnL loc.real_decpt s2).length ≤ 1 then decDivPow nv1 n
          else nv1
      some (decRepr nv2)

/-- German-locale separators (`de_DE.UTF-8`), the configuration shipped
with the program. -/
def locDE : NumLocale := ⟨",".toList, ".".toList⟩

example :
    cleanNumValue ⟨some ",".toList, none, none, none, none, .noneU⟩ locDE
      "12,5kWh".toList = some "12.5".toList := by decide
example :
    cleanNumValue ⟨some ",".toList, none, none, none, none, .noneU⟩ locDE
      "12.5".toList = some "125".toList := by decide
example :
    cleanNumValue ⟨none, none, some 1, none, none, .noneU⟩ locDE
      "125°C".toList = some "12.5".toList := by decide

/-! ## Matchers for the three hard-coded regular expressions

`re.search` semantics: try every start position left to right; at a given
position explore the alternatives in the order preferred by a backtracking
engine (greedy quantifiers first). -/

/-- After group 1 of the temperature pattern: `\s*°C` (the whitespace run
is forced because `°` is not whitespace). -/
def tempSuffixOk (l : List Char) : Bool :=
  match l.dropWhile Char.isWhitespace with
  | a :: b :: _ => a = '°' && b = 'C'
  | _ => false

/-- The `,?\d` tail of the temperature group: a comma variant is preferred
when it completes a match, otherwise a plain digit. Returns the group
characters contributed by the tail. -/
def tempTail (l : List Char) : Option (List Char) :=
  (match l with
   | a :: d :: rest =>
     if a = ',' && d.isDigit && tempSuffixOk rest then some [a, d] else none
   | _ => none)
  <|>
  (match l with
   | d :: rest => if d.isDigit && tempSuffixOk rest then some [d] else none
   | _ => none)

/-- The `\d{1,2}` head of the temperature group: two digits preferred over
one, each tried with the full continuation. -/
def tempDigits (l : List Char) : Option (List Char) :=
  match l with
  | a :: rest =>
    if a.isDigit then
      (match rest with
       | b :: rest2 =>
         if b.isDigit then (tempTail rest2).map (fun g => a :: b :: g) else none
       | [] => none)
      <|> (tempTail rest).map (fun g => a :: g)
    else none
  | [] => none

/-- Group 1 of `(-?\d{1,2},?\d)\s*°C` anchored at the current position. -/
def tempAt (l : List Char) : Option (List Char) :=
  (match l with
   | a :: rest =>
     if a = '-' then (tempDigits rest).map (fun g => a :: g) else none
   | [] => none)
  <|> tempDigits l

/-- `re.search(r"(-?\d{1,2},?\d)\s*°C", s)`, returning group 1 of the
leftmost match. -/
def tempSearch : List Char → Option (List Char)
  | [] => none
  | a :: rest => tempAt (a :: rest) <|> tempSearch rest

example : tempSearch "21,3°C".toList = some "21,3".toList := by decide
example : tempSearch "45°C".toList = some "45".toList := by decide
example : tempSearch "5°C".toList = none := by decide
example : tempSearch "1234°C".toList = some "234".toList := by decide
example : tempSearch "-7,5 °C".toList = some "-7,5".toList := by decide

/-- The `-?\d+[.,]?\d*` numeric group shared by the energy and power
patterns, anchored at the current position.  Because the unit that must
follow starts with a letter, and letters are neither digits, separators
nor whitespace, the greedy parse is the only candidate; returns the group
and the rest of the input. -/
def numGroup (l : List Char) : Option (List Char × List Char) :=
  let sgn : List Char := match l with
    | '-' :: _ => ['-']
    | _ => []
  let l1 : List Char := match l with
    | '-' :: r => r
    | _ => l
  let d1 := l1.takeWhile Char.isDigit
  let r1 := l1.dropWhile Char.isDigit
  if d1 = [] then none
  else
    match r1 with
    | c :: r2 =>
      if c = '.' ∨ c = ',' then
        some (sgn ++ d1 ++ c :: r2.takeWhile Char.isDigit, r2.dropWhile Char.isDigit)
      else some (sgn ++ d1, r1)
    | [] => some (sgn ++ d1, [])

/-- First alternative of an alternation that is a prefix of `l` (the order
of the list is the order in the pattern). -/
def firstAlt (l : List Char) : List (List Char) → Option (List Char)
  | [] => none
  | u :: us => if u <+: l then some u else firstAlt l us

/-- The energy unit alternation `(kWh|kwh|Kwh|KWh|mwh|Mwh|MWh)`. -/
def energyUnitAlts : List (List Char) :=
  ["kWh".toList, "kwh".toList, "Kwh".toList, "KWh".toList,
   "mwh".toList, "Mwh".toList, "MWh".toList]

/-- The power unit alternation `(w|W|kW|kw|KW|kkW|kKW)`. -/
def powerUnitAlts : List (List Char) :=
  ["w".toList, "W".toList, "kW".toList, "kw".toList, "KW".toList,
   "kkW".toList, "kKW".toList]

/-- `re.search(r"(-?\d+[.,]?\d*)\s*(ALTS)", s)` anchored at the current
position: numeric group, forced whitespace skip, then the alternation. -/
def unitMatchAt (alts : List (List Char)) (l : List Char) :
    Option (List Char × List Char) :=
  match numGroup l with
  | none => none
  | some (g, rest) =>
    match firstAlt (rest.dropWhile Char.isWhitespace) alts with
    | none => none
    | some u => some (g, u)

/-- Leftmost search for the energy pattern, returning groups 1 and 2. -/
def energySearch : List Char → Option (List Char × List Char)
  | [] => none
  | a :: rest => unitMatchAt energyUnitAlts (a :: rest) <|> energySearch rest

/-- Leftmost search for the power pattern, returning groups 1 and 2. -/
def powerSearch : List Char → Option (List Char × List Char)
  | [] => none
  | a :: rest => unitMatchAt powerUnitAlts (a :: rest) <|> powerSearch rest

example : energySearch "12,5 kWh".toList = some ("12,5".toList, "kWh".toList) := by decide
example : energySearch "3mwh".toList = some ("3".toList, "mwh".toList) := by decide
example : powerSearch "0W".toList = some ("0".toList, "W".toList) := by decide
example : powerSearch "1250kw".toList = some ("1250".toList, "kw".toList) := by decide
example : powerSearch "5kWh".toList = some ("5".toList, "kW".toList) := by decide
example : energySearch "5°C".toList = none := by decide
example : powerSearch "5°C".toList = none := by decide

/-- Case fixes applied to a matched energy unit, in source order:
`w→W`, `H→h`, `KW→kW`, `mW→MW`. -/
def energyUnitFix (u : List Char) : List Char :=
  pyReplace "mW".toList "MW".toList
    (pyReplace "KW".toList "kW".toList
      (pyReplace "H".toList "h".toList
        (pyReplace "w".toList "W".toList u)))

/-- Case fixes applied to a matched power unit, in source order:
`w→W`, `KW→kW`, `kw→kW`, `kKW→kW`. -/
def powerUnitFix (u : List Char) : List Char :=
  pyReplace "kKW".toList "kW".toList
    (pyReplace "kw".toList "kW".toList
      (pyReplace "KW".toList "kW".toList
        (pyReplace "w".toList "W".toList u)))

example : energyUnitFix "Kwh".toList = "kWh".toList := by decide
example : energyUnitFix "mwh".toList = "MWh".toList := by decide
example : powerUnitFix "kw".toList = "kW".toList := by decide
example : powerUnitFix "KW".toList = "kW".toList := by decide

/-! ## `process_numeric_values` -/

/-- The fixed character-confusion correction table, applied in source
order: `A→4`, `B→8`, `D→0`, `I→1`, `T→7`, `ı→ `. -/
def ocrCorrections (l : List Char) : List Char :=
  pyReplace "ı".toList " ".toList
    (pyReplace "T".toList "7".toList
      (pyReplace "I".toList "1".toList
        (pyReplace "D".toList "0".toList
          (pyReplace "B".toList "8".toList
            (pyReplace "A".toList "4".toList l)))))

example : ocrCorrections "1A5°C".toList = "145°C".toList := by decide

/-- The unit hint consulted for segment `i`: outer `none` models the
`IndexError` raised when the configured `unit` list is shorter than the
number of segments; the inner option is the hint itself. -/
def definedUnit (cfg : RegionCfg) (i : ℕ) : Option (Option (List Char)) :=
  match cfg.unit with
  | .noneU => some none
  | .single u => some (some u)
  | .listU l => (l.get? i).map some

/-- Processing of one text segment inside the loop of
`process_numeric_values` (given the unit hint `du` for its position):
mandatory-content gate, strip, `0WW`/`0W` workaround, character-confusion
correction, first-match-wins classification, and value production.
`none` propagates divergence of the `maxValue` loop. -/
def segValue (cfg : RegionCfg) (loc : NumLocale) (du : Option (List Char))
    (t : List Char) : Option (List Char) :=
  let ct0 : List Char := match cfg.mandatoryText with
    | some ts => if ts.all (fun t2 => pyInB t2 t) then t else []
    | none => t
  let ct1 := pyStrip ct0
  let ct2 :=
    if pyUpper ct1 = "0WW".toList ∨ pyUpper ct1 = "0W".toList then "0W".toList
    else ct1
  let corrected := ocrCorrections ct2
  match tempSearch corrected with
  | some g => cleanNumValue cfg loc (g ++ "°C".toList)
  | none =>
    match energySearch corrected with
    | some gu => cleanNumValue cfg loc (gu.1 ++ energyUnitFix gu.2)
    | none =>
      match powerSearch corrected with
      | some gu => cleanNumValue cfg loc (gu.1 ++ powerUnitFix gu.2)
      | none =>
        match du with
        | some u => if u ≠ "None".toList then some [] else some ct2
        | none => some ct2

/-- Insertion-ordered dictionary update `data[k] = v`: overwrite in place
when the key exists, append otherwise. -/
def dictInsert {α : Type} : List (String × α) → String → α → List (String × α)
  | [], k, v => [(k, v)]
  | p :: d, k, v => if p.1 = k then (k, v) :: d else p :: dictInsert d k v

/-- Lookup in an insertion-ordered dictionary. -/
def dictGet {α : Type} (d : List (String × α)) (k : String) : Option α :=
  (d.find? (fun p => p.1 = k)).map (fun p => p.2)

/-- Key list of an insertion-ordered dictionary. -/
def dictKeys {α : Type} (d : List (String × α)) : List String :=
  d.map (fun p => p.1)

/-- Python `d.update(d2)`: insert every entry of `d2` in order. -/
def dictUpdate {α : Type} (d d2 : List (String × α)) : List (String × α) :=
  d2.foldl (fun acc p => dictInsert acc p.1 p.2) d

/-- The key receiving segment `i` of a region: segment 0 goes to the
region key, later segments go to the secondary key when one is declared
and are skipped otherwise (`continue`). -/
def segKey (cfg : RegionCfg) (key : String) (i : ℕ) : Option String :=
  if i = 0 then some key
  else match cfg.secondaryKey with
    | none => none
    | some s => some s

/-- The indexed loop over text segments in `process_numeric_values`. -/
def processSegsAux (cfg : RegionCfg) (loc : NumLocale) (key : String) :
    List (List Char) → ℕ → List (String × List Char) →
    Option (List (String × List Char))
  | [], _, acc => some acc
  | t :: rest, i, acc =>
    match segKey cfg key i with
    | none => processSegsAux cfg loc key rest (i + 1) acc
    | some k =>
      match definedUnit cfg i with
      | none => none
      | some du =>
        match segValue cfg loc du t with
        | none => none
        | some v => processSegsAux cfg loc key rest (i + 1) (dictInsert acc k v)

/-- The segment list of `process_numeric_values`: split on `(` when the
text contains one, else the whole text. -/
def regionTexts (text : List Char) : List (List Char) :=
  if pyInB "(".toList text then pySplitChar '(' text else [text]

/-- `MiraRegion.process_numeric_values`, with the recognized region text
supplied as `text` (image handling and OCR abstracted away). -/
def processNumericValues (cfg : RegionCfg) (loc : NumLocale) (key : String)
    (text : List Char) : Option (List (String × List Char)) :=
  processSegsAux cfg loc key (regionTexts text) 0 []

/-- A region configuration with no optional field set. -/
def cfgPlain : RegionCfg := ⟨none, none, none, none, none, .noneU⟩

example :
    processNumericValues cfgPlain locDE "K" "5°C".toList =
      some [("K", "5°C".toList)] := by decide
example :
    processNumericValues cfgPlain locDE "K" "45°C".toList =
      some [("K", "45.0".toList)] := by decide
example :
    processNumericValues
      ⟨none, none, none, some "S", none, .noneU⟩ locDE "K" "a(b(c".toList =
      some [("K", "a".toList), ("S", "c".toList)] := by decide
example :
    processNumericValues cfgPlain locDE "K" "a(b(c".toList =
      some [("K", "a".toList)] := by decide
example :
    processNumericValues
      ⟨none, none, none, some "S", some ["Z".toList], .noneU⟩ locDE "K"
      "a(b".toList = some [("K", []), ("S", [])] := by decide
example :
    processNumericValues
      ⟨none, none, none, some "S", none, .noneU⟩ locDE "K"
      "21,3°C (18,9°C)".toList =
      some [("K", "21.3".toList), ("S", "18.9".toList)] := by decide
example :
    processNumericValues cfgPlain locDE "K" "0WW".toList =
      some [("K", "0.0".toList)] := by decide

/-! ## Page navigation (`do_mouse_moves_and_click`, `traverse_pages`) -/

/-- One entry of a page's `MouseMovesAndClicks` script: target coordinates
and the optional list of required substrings (`none` models both an absent
`MandatoryText` key and an explicit `null`). -/
structure PtrAction where
  moveTo : ℤ × ℤ
  mandatoryText : Option (List (List Char))
deriving DecidableEq

/-- Observable remote-session events, in the order the code issues them. -/
inductive NavEv
  | move (x y : ℤ)
  | pause
  | click
  | capture
deriving DecidableEq, Repr

/-- The event block of one pointer action: move, settle pause, click,
pause, screenshot. -/
def actEvents (a : PtrAction) : List NavEv :=
  [.move a.moveTo.1 a.moveTo.2, .pause, .click, .pause, .capture]

/-- `MiraPage.check_mandatory_content`: every required substring must
occur in the text recognized from the captured frame. -/
def checkMandatoryContent (ts : List (List Char)) (text : List Char) : Bool :=
  ts.all (fun t => pyInB t text)

/-- `MiraPage.do_mouse_moves_and_click` over a pointer-action list,
starting with `n` frames already captured; `ocr m` is the text recognized
on the m-th captured frame.  Returns the emitted event trace, the new
capture count, and the boolean result. -/
def doMouseMovesAndClick (ocr : ℕ → List Char) :
    List PtrAction → ℕ → List NavEv × ℕ × Bool
  | [], n => ([], n, true)
  | a :: rest, n =>
    let evs := actEvents a
    match a.mandatoryText with
    | none => (evs, n + 1, true)
    | some ts =>
      if checkMandatoryContent ts (ocr n) then
        let r := doMouseMovesAndClick ocr rest (n + 1)
        (evs ++ r.1, r.2.1, r.2.2)
      else (evs, n + 1, false)

/-- A configured page as `traverse_pages` sees it: its pointer script, the
per-frame OCR oracle of its visit, and the data its region processing
would contribute (`process_regions` output, abstracted). -/
structure PageSpec where
  script : Option (List PtrAction)
  ocr : ℕ → List Char
  results : List (String × List Char)

/-- Whether `traverse_pages` keeps the page: pages without a script are
always kept, pages with one are kept exactly when
`do_mouse_moves_and_click` returns `True` (otherwise `continue`). -/
def pageSelected (p : PageSpec) : Bool :=
  match p.script with
  | none => true
  | some acts => (doMouseMovesAndClick p.ocr acts 0).2.2

/-- The dataset accumulation of `traverse_pages`: starting from the
collector's initial data, `self.data.update(mira_page.data)` for every
page that survived navigation, in configuration order. -/
def traversePages (init : List (String × List Char)) (pages : List PageSpec) :
    List (String × List Char) :=
  (pages.filter pageSelected).foldl (fun d p => dictUpdate d p.results) init

/-- A constant OCR oracle. -/
def constOcr (t : List Char) : ℕ → List Char := fun _ => t

example :
    doMouseMovesAndClick (constOcr "AB".toList)
      [⟨(1, 2), some ["A".toList, "B".toList]⟩, ⟨(3, 4), some ["A".toList]⟩] 0 =
      (actEvents ⟨(1, 2), some ["A".toList, "B".toList]⟩ ++
        actEvents ⟨(3, 4), some ["A".toList]⟩, 2, true) := by decide
example :
    doMouseMovesAndClick (constOcr "A".toList)
      [⟨(1, 2), some ["A".toList, "B".toList]⟩, ⟨(3, 4), some ["A".toList]⟩] 0 =
      (actEvents ⟨(1, 2), some ["A".toList, "B".toList]⟩, 1, false) := by decide
example :
    doMouseMovesAndClick (constOcr "A".toList)
      [⟨(1, 2), none⟩, ⟨(3, 4), some ["A".toList]⟩] 0 =
      (actEvents ⟨(1, 2), none⟩, 1, true) := by decide

/-! ## Helper lemmas -/

theorem sub_cons {x t : List Char} (a : Char) (h : x <:+: t) : x <:+: a :: t := by
  obtain ⟨s, u, rfl⟩ := h
  exact ⟨a :: s, u, rfl⟩

theorem sub_refl (x : List Char) : x <:+: x :=
  ⟨[], [], by simp⟩

theorem pre_to_sub {x l : List Char} (h : x <+: l) : x <:+: l := by
  obtain ⟨t, rfl⟩ := h
  exact ⟨[], t, by simp⟩

theorem pre_cons₂ {s l : List Char} (a : Char) (h : s <+: l) : a :: s <+: a :: l := by
  obtain ⟨t, rfl⟩ := h
  exact ⟨t, rfl⟩

theorem pyReplaceF_not_occur (p r : List Char) (fuel : ℕ) :
    ∀ l : List Char, ¬ p <:+: l → pyReplaceF p r fuel l = l := by
  induction fuel with
  | zero => intro l _; rfl
  | succ fuel ih =>
    intro l hl
    match l with
    | [] => rfl
    | a :: rest =>
      rw [pyReplaceF]
      have hc : ¬ (p ≠ [] ∧ p <+: (a :: rest)) := by
        rintro ⟨-, hp⟩
        exact hl (pre_to_sub hp)
      rw [if_neg hc]
      have hr : ¬ p <:+: rest := fun h => hl (sub_cons a h)
      rw [ih rest hr]

theorem pyReplace_not_occur (p r l : List Char) (h : ¬ p <:+: l) :
    pyReplace p r l = l :=
  pyReplaceF_not_occur p r l.length l h

theorem pySplitChar_ne_nil (c : Char) (l : List Char) : pySplitChar c l ≠ [] := by
  match l with
  | [] => simp [pySplitChar]
  | a :: rest =>
    rw [pySplitChar]
    split
    · simp
    · split
      · simp
      · simp

theorem pySplitChar_head_pre (c : Char) :
    ∀ (l s : List Char) (ss : List (List Char)),
      pySplitChar c l = s :: ss → s <+: l := by
  intro l
  induction l with
  | nil =>
    intro s ss h
    simp only [pySplitChar] at h
    cases h
    exact ⟨[], rfl⟩
  | cons a rest ih =>
    intro s ss h
    rw [pySplitChar] at h
    by_cases hac : a = c
    · rw [if_pos hac] at h
      cases h
      exact ⟨a :: rest, rfl⟩
    · rw [if_neg hac] at h
      cases hsplit : pySplitChar c rest with
      | nil => exact absurd hsplit (pySplitChar_ne_nil c rest)
      | cons s0 ss0 =>
        rw [hsplit] at h
        cases h
        exact pre_cons₂ a (ih s0 _ hsplit)

theorem mem_pySplitChar_sub (c : Char) :
    ∀ (l s : List Char), s ∈ pySplitChar c l → s <:+: l := by
  intro l
  induction l with
  | nil =>
    intro s h
    simp only [pySplitChar, List.mem_singleton] at h
    subst h
    exact ⟨[], [], rfl⟩
  | cons a rest ih =>
    intro s h
    rw [pySplitChar] at h
    by_cases hac : a = c
    · rw [if_pos hac] at h
      rcases List.mem_cons.mp h with rfl | h2
      · exact ⟨[], a :: rest, rfl⟩
      · exact sub_cons a (ih s h2)
    · rw [if_neg hac] at h
      cases hsplit : pySplitChar c rest with
      | nil => exact absurd hsplit (pySplitChar_ne_nil c rest)
      | cons s0 ss0 =>
        rw [hsplit] at h
        rcases List.mem_cons.mp h with rfl | h2
        · exact pre_to_sub (pre_cons₂ a (pySplitChar_head_pre c rest s0 ss0 hsplit))
        · exact sub_cons a (ih s (hsplit ▸ List.mem_cons_of_mem s0 h2))

theorem mem_regionTexts_sub (text s : List Char) (h : s ∈ regionTexts text) :
    s <:+: text := by
  rw [regionTexts] at h
  split at h
  · exact mem_pySplitChar_sub '(' text s h
  · simp only [List.mem_singleton] at h
    rw [h]

theorem dictGet_cons {α : Type} (p : String × α) (d : List (String × α)) (k : String) :
    dictGet (p :: d) k = if p.1 = k then some p.2 else dictGet d k := by
  by_cases h : p.1 = k
  · rw [if_pos h, dictGet, List.find?_cons_of_pos _ (by simpa using h)]
    rfl
  · rw [if_neg h, dictGet, List.find?_cons_of_neg _ (by simpa using h), dictGet]

theorem dictGet_insert_self {α : Type} (d : List (String × α)) (k : String) (v : α) :
    dictGet (dictInsert d k v) k = some v := by
  induction d with
  | nil => simp [dictInsert, dictGet_cons]
  | cons p d ih =>
    rw [dictInsert]
    by_cases h : p.1 = k
    · rw [if_pos h, dictGet_cons, if_pos rfl]
    · rw [if_neg h, dictGet_cons, if_neg h]
      exact ih

theorem dictGet_insert_ne {α : Type} (d : List (String × α)) (k k2 : String) (v : α)
    (h : k ≠ k2) : dictGet (dictInsert d k2 v) k = dictGet d k := by
  induction d with
  | nil =>
    rw [dictInsert, dictGet_cons, if_neg (fun h2 : k2 = k => h h2.symm)]
  | cons p d ih =>
    rw [dictInsert]
    by_cases hp : p.1 = k2
    · rw [if_pos hp, dictGet_cons, dictGet_cons, hp,
        if_neg (fun h2 : k2 = k => h h2.symm), if_neg (fun h2 : k2 = k => h h2.symm)]
    · rw [if_neg hp, dictGet_cons, dictGet_cons]
      by_cases hk : p.1 = k
      · rw [if_pos hk, if_pos hk]
      · rw [if_neg hk, if_neg hk]
        exact ih

theorem mem_dictInsert {α : Type} (d : List (String × α)) (k : String) (v : α)
    (p : String × α) (h : p ∈ dictInsert d k v) : p = (k, v) ∨ p ∈ d := by
  induction d with
  | nil =>
    simp only [dictInsert, List.mem_singleton] at h
    exact Or.inl h
  | cons q d ih =>
    rw [dictInsert] at h
    by_cases hq : q.1 = k
    · rw [if_pos hq] at h
      rcases List.mem_cons.mp h with rfl | h2
      · exact Or.inl rfl
      · exact Or.inr (List.mem_cons_of_mem q h2)
    · rw [if_neg hq] at h
      rcases List.mem_cons.mp h with rfl | h2
      · exact Or.inr (List.mem_cons_self p d)
      · rcases ih h2 with h3 | h3
        · exact Or.inl h3
        · exact Or.inr (List.mem_cons_of_mem q h3)

theorem mem_keys_dictInsert {α : Type} (d : List (String × α)) (k k2 : String) (v : α)
    (h : k2 ∈ dictKeys (dictInsert d k v)) : k2 = k ∨ k2 ∈ dictKeys d := by
  rw [dictKeys] at h
  rcases List.mem_map.mp h with ⟨p, hp, hpk⟩
  rcases mem_dictInsert d k v p hp with rfl | h2
  · exact Or.inl hpk.symm
  · exact Or.inr (hpk ▸ List.mem_map.mpr ⟨p, h2, rfl⟩)

theorem dictUpdate_cons {α : Type} (d : List (String × α)) (p : String × α)
    (d2 : List (String × α)) :
    dictUpdate d (p :: d2) = dictUpdate (dictInsert d p.1 p.2) d2 := rfl

theorem mem_keys_cons {α : Type} (p : String × α) (d2 : List (String × α))
    (k : String) (h : k ∈ dictKeys d2) : k ∈ dictKeys (p :: d2) := by
  rw [dictKeys] at h
  rcases List.mem_map.mp h with ⟨q, hq, rfl⟩
  exact List.mem_map.mpr ⟨q, List.mem_cons_of_mem p hq, rfl⟩

theorem dictGet_update_not_mem {α : Type} (d2 : List (String × α)) :
    ∀ (d : List (String × α)) (k : String), k ∉ dictKeys d2 →
      dictGet (dictUpdate d d2) k = dictGet d k := by
  induction d2 with
  | nil => intro d k _; rfl
  | cons p d2 ih =>
    intro d k hk
    have h1 : k ≠ p.1 := by
      intro h
      exact hk (h ▸ List.mem_map.mpr ⟨p, List.mem_cons_self p d2, rfl⟩)
    have h2 : k ∉ dictKeys d2 := fun h => hk (mem_keys_cons p d2 k h)
    rw [dictUpdate_cons, ih (dictInsert d p.1 p.2) k h2]
    exact dictGet_insert_ne d k p.1 p.2 h1

theorem mem_keys_dictUpdate {α : Type} (d2 : List (String × α)) :
    ∀ (d : List (String × α)) (k : String), k ∈ dictKeys (dictUpdate d d2) →
      k ∈ dictKeys d ∨ k ∈ dictKeys d2 := by
  induction d2 with
  | nil => intro d k h; exact Or.inl h
  | cons p d2 ih =>
    intro d k h
    rw [dictUpdate_cons] at h
    rcases ih (dictInsert d p.1 p.2) k h with h2 | h2
    · rcases mem_keys_dictInsert d p.1 k p.2 h2 with rfl | h3
      · exact Or.inr (List.mem_map.mpr ⟨p, List.mem_cons_self p d2, rfl⟩)
      · exact Or.inl h3
    · exact Or.inr (mem_keys_cons p d2 k h2)

/-! ## Step lemmas for `do_mouse_moves_and_click` -/

theorem doMM_nil (ocr : ℕ → List Char) (n : ℕ) :
    doMouseMovesAndClick ocr [] n = ([], n, true) := rfl

theorem doMM_cons_none (ocr : ℕ → List Char) (a : PtrAction) (rest : List PtrAction)
    (n : ℕ) (h : a.mandatoryText = none) :
    doMouseMovesAndClick ocr (a :: rest) n = (actEvents a, n + 1, true) := by
  simp only [doMouseMovesAndClick, h]

theorem doMM_cons_pass (ocr : ℕ → List Char) (a : PtrAction) (rest : List PtrAction)
    (n : ℕ) (ts : List (List Char)) (h : a.mandatoryText = some ts)
    (hc : checkMandatoryContent ts (ocr n) = true) :
    doMouseMovesAndClick ocr (a :: rest) n =
      (actEvents a ++ (doMouseMovesAndClick ocr rest (n + 1)).1,
       (doMouseMovesAndClick ocr rest (n + 1)).2.1,
       (doMouseMovesAndClick ocr rest (n + 1)).2.2) := by
  simp only [doMouseMovesAndClick, h, hc, if_true]

theorem doMM_cons_fail (ocr : ℕ → List Char) (a : PtrAction) (rest : List PtrAction)
    (n : ℕ) (ts : List (List Char)) (h : a.mandatoryText = some ts)
    (hc : checkMandatoryContent ts (ocr n) = false) :
    doMouseMovesAndClick ocr (a :: rest) n = (actEvents a, n + 1, false) := by
  simp only [doMouseMovesAndClick, h, hc]
  simp

/-! ## Claims -/

/-- C1, counterexample: a script whose first action declares no required
substrings returns success after that action alone — the second action is
never executed (its `move` event is absent from the trace), contradicting
"the remaining actions are still executed". -/
theorem claim_C1_counterexample :
    (doMouseMovesAndClick (constOcr "X".toList)
        [⟨(1, 2), none⟩, ⟨(3, 4), some ["X".toList]⟩] 0).2.2 = true ∧
    (doMouseMovesAndClick (constOcr "X".toList)
        [⟨(1, 2), none⟩, ⟨(3, 4), some ["X".toList]⟩] 0).1 =
      actEvents ⟨(1, 2), none⟩ ∧
    NavEv.move 3 4 ∉
      (doMouseMovesAndClick (constOcr "X".toList)
        [⟨(1, 2), none⟩, ⟨(3, 4), some ["X".toList]⟩] 0).1 := by
  decide

/-- C1, amended: `do_mouse_moves_and_click` executes pointer actions
strictly in order, each as move, pause, click, pause, capture — but it
returns success immediately after the first action that declares no
required substrings, skipping all remaining actions.  When every action
declares required substrings, a successful run has executed every action
in order (the trace is the concatenation of the per-action event blocks). -/
theorem claim_C1_theorem :
    (∀ (ocr : ℕ → List Char) (acts : List PtrAction) (n : ℕ),
        (∀ a ∈ acts, a.mandatoryText ≠ none) →
        (doMouseMovesAndClick ocr acts n).2.2 = true →
        (doMouseMovesAndClick ocr acts n).1 = (acts.map actEvents).flatten) ∧
    (∀ (ocr : ℕ → List Char) (a : PtrAction) (rest : List PtrAction) (n : ℕ),
        a.mandatoryText = none →
        doMouseMovesAndClick ocr (a :: rest) n = (actEvents a, n + 1, true)) := by
  constructor
  · intro ocr acts
    induction acts with
    | nil => intro n _ _; simp [doMM_nil]
    | cons a rest ih =>
      intro n hall hres
      cases hmt : a.mandatoryText with
      | none => exact absurd hmt (hall a (List.mem_cons_self a rest))
      | some ts =>
        by_cases hc : checkMandatoryContent ts (ocr n) = true
        · rw [doMM_cons_pass ocr a rest n ts hmt hc] at hres ⊢
          rw [List.map_cons, List.flatten_cons,
            ih (n + 1) (fun b hb => hall b (List.mem_cons_of_mem a hb)) hres]
        · have hc2 : checkMandatoryContent ts (ocr n) = false := by simpa using hc
          rw [doMM_cons_fail ocr a rest n ts hmt hc2] at hres
          simp at hres
  · intro ocr a rest n h
    exact doMM_cons_none ocr a rest n h

theorem claim_C1_witness :
    (doMouseMovesAndClick (constOcr "X".toList)
        [⟨(1, 2), some ["X".toList]⟩, ⟨(3, 4), some [[]]⟩] 0).1 =
      (([⟨(1, 2), some ["X".toList]⟩, ⟨(3, 4), some [[]]⟩] :
          List PtrAction).map actEvents).flatten ∧
    doMouseMovesAndClick (constOcr "X".toList) [⟨(5, 6), none⟩] 0 =
      (actEvents ⟨(5, 6), none⟩, 1, true) :=
  ⟨claim_C1_theorem.1 _ _ 0 (by decide) (by decide),
   claim_C1_theorem.2 _ ⟨(5, 6), none⟩ [] 0 rfl⟩

/-- C2: a pointer action that declares required substrings succeeds if and
only if every one of them is a literal infix of the text recognized from
the frame captured right after its click; on a miss the script stops at
that action with `False`; and a page whose navigation failed (so it is not
selected) contributes none of its region entries to the run-wide dataset. -/
theorem claim_C2_theorem :
    (∀ (ts : List (List Char)) (text : List Char),
        checkMandatoryContent ts text = true ↔ ∀ t ∈ ts, t <:+: text) ∧
    (∀ (ocr : ℕ → List Char) (a : PtrAction) (rest : List PtrAction) (n : ℕ)
        (ts : List (List Char)), a.mandatoryText = some ts →
        checkMandatoryContent ts (ocr n) = false →
        doMouseMovesAndClick ocr (a :: rest) n = (actEvents a, n + 1, false)) ∧
    (∀ (init : List (String × List Char)) (pages : List PageSpec) (k : String),
        k ∉ dictKeys init →
        (∀ q ∈ pages, pageSelected q = true → k ∉ dictKeys q.results) →
        k ∉ dictKeys (traversePages init pages)) := by
  refine ⟨?_, ?_, ?_⟩
  · intro ts text
    simp [checkMandatoryContent, pyInB, List.all_eq_true]
  · intro ocr a rest n ts h hc
    exact doMM_cons_fail ocr a rest n ts h hc
  · intro init pages k hinit hsel
    have main : ∀ (ps : List PageSpec) (d : List (String × List Char)),
        k ∉ dictKeys d → (∀ q ∈ ps, k ∉ dictKeys q.results) →
        k ∉ dictKeys (ps.foldl (fun d2 p => dictUpdate d2 p.results) d) := by
      intro ps
      induction ps with
      | nil => intro d hd _; exact hd
      | cons p ps ih =>
        intro d hd hqs
        rw [List.foldl_cons]
        refine ih (dictUpdate d p.results) ?_
          (fun q hq => hqs q (List.mem_cons_of_mem p hq))
        intro hmem
        rcases mem_keys_dictUpdate p.results d k hmem with h2 | h2
        · exact hd h2
        · exact hqs p (List.mem_cons_self p ps) h2
    refine main (pages.filter pageSelected) init hinit ?_
    intro q hq
    have h2 := List.mem_filter.mp hq
    exact hsel q h2.1 h2.2

/-- A single-action page used in witnesses: the script requires the
substrings `A` and `B` but the captured frame only shows `A`. -/
def pageC2 : PageSpec :=
  ⟨some [⟨(1, 2), some ["A".toList, "B".toList]⟩], constOcr "A".toList,
   [("K", "1".toList)]⟩

theorem claim_C2_witness :
    (checkMandatoryContent ["A".toList, "B".toList] "xAyB".toList = true ↔
      ∀ t ∈ ["A".toList, "B".toList], t <:+: "xAyB".toList) ∧
    doMouseMovesAndClick (constOcr "A".toList)
        [⟨(1, 2), some ["A".toList, "B".toList]⟩, ⟨(3, 4), some ["A".toList]⟩] 0 =
      (actEvents ⟨(1, 2), some ["A".toList, "B".toList]⟩, 1, false) ∧
    "K" ∉ dictKeys (traversePages [("Timestamp", "t".toList)] [pageC2]) :=
  ⟨claim_C2_theorem.1 _ _,
   claim_C2_theorem.2.1 _ _ _ 0 _ rfl (by decide),
   claim_C2_theorem.2.2 _ _ "K" (by decide)
     (fun q hq hsel => by
       rw [List.mem_singleton] at hq
       subst hq
       exact absurd hsel (by decide))⟩

/-- C4, counterexample: two selected pages that share the key `K` are
merged with `dict.update`, so the run completes and the later page's value
silently replaces the earlier page's one — no validation rejects the
duplicate before the run. -/
def pageC4a : PageSpec := ⟨none, constOcr [], [("K", "1".toList)]⟩

def pageC4b : PageSpec := ⟨none, constOcr [], [("K", "2".toList)]⟩

theorem claim_C4_counterexample :
    dictGet (traversePages [("Timestamp", "t".toList)] [pageC4a]) "K" =
      some "1".toList ∧
    dictGet (traversePages [("Timestamp", "t".toList)] [pageC4a, pageC4b]) "K" =
      some "2".toList ∧
    some "2".toList ≠ some "1".toList := by
  decide

/-- C4, amended: the source performs no duplicate-key validation; merging
is `dict.update`, which only preserves earlier dataset entries for keys
that no later page redefines — for any key outside a page's results the
merge of that page changes nothing, and a key no page redefines keeps its
initial value across the whole traversal. -/
theorem claim_C4_theorem :
    (∀ (α : Type) (d r : List (String × α)) (k : String), k ∉ dictKeys r →
        dictGet (dictUpdate d r) k = dictGet d k) ∧
    (∀ (init : List (String × List Char)) (pages : List PageSpec) (k : String),
        (∀ p ∈ pages, k ∉ dictKeys p.results) →
        dictGet (traversePages init pages) k = dictGet init k) := by
  constructor
  · intro α d r k h
    exact dictGet_update_not_mem r d k h
  · intro init pages k hall
    have main : ∀ (ps : List PageSpec) (d : List (String × List Char)),
        (∀ p ∈ ps, k ∉ dictKeys p.results) →
        dictGet (ps.foldl (fun d2 p => dictUpdate d2 p.results) d) k = dictGet d k := by
      intro ps
      induction ps with
      | nil => intro d _; rfl
      | cons p ps ih =>
        intro d hps
        rw [List.foldl_cons, ih (dictUpdate d p.results)
          (fun q hq => hps q (List.mem_cons_of_mem p hq))]
        exact dictGet_update_not_mem p.results d k (hps p (List.mem_cons_self p ps))
    refine main (pages.filter pageSelected) init ?_
    intro q hq
    exact hall q (List.mem_filter.mp hq).1

theorem claim_C4_witness :
    dictGet (dictUpdate [("A", "1".toList)] [("B", "2".toList)]) "A" =
      dictGet [("A", "1".toList)] "A" ∧
    dictGet (traversePages [("Timestamp", "t".toList)] [pageC4a]) "Z" =
      dictGet [("Timestamp", "t".toList)] "Z" :=
  ⟨claim_C4_theorem.1 _ _ _ "A" (by decide),
   claim_C4_theorem.2 _ [pageC4a] "Z"
     (fun p hp => by
       rw [List.mem_singleton] at hp
       subst hp
       exact (by decide))⟩

/-! ## Step lemmas for `processSegsAux` -/

theorem pSA_nil (cfg : RegionCfg) (loc : NumLocale) (key : String) (i : ℕ)
    (acc : List (String × List Char)) :
    processSegsAux cfg loc key [] i acc = some acc := rfl

theorem segKey_zero (cfg : RegionCfg) (key : String) : segKey cfg key 0 = some key :=
  rfl

theorem segKey_succ_none (cfg : RegionCfg) (key : String) (i : ℕ)
    (hsec : cfg.secondaryKey = none) : segKey cfg key (i + 1) = none := by
  rw [segKey, if_neg (Nat.succ_ne_zero i), hsec]

theorem segKey_succ_some (cfg : RegionCfg) (key s : String) (i : ℕ)
    (hsec : cfg.secondaryKey = some s) : segKey cfg key (i + 1) = some s := by
  rw [segKey, if_neg (Nat.succ_ne_zero i), hsec]

theorem processSegsAux_keys (cfg : RegionCfg) (loc : NumLocale) (key : String) :
    ∀ (segs : List (List Char)) (i : ℕ) (acc m : List (String × List Char)),
      processSegsAux cfg loc key segs i acc = some m →
      ∀ p ∈ m, (p.1 = key ∨ cfg.secondaryKey = some p.1) ∨ p ∈ acc := by
  intro segs
  induction segs with
  | nil =>
    intro i acc m h p hp
    rw [pSA_nil] at h
    cases h
    exact Or.inr hp
  | cons t rest ih =>
    intro i acc m h p hp
    cases i with
    | zero =>
      simp only [processSegsAux, segKey_zero] at h
      cases hdu : definedUnit cfg 0 with
      | none =>
        simp only [hdu] at h
        exact Option.noConfusion h
      | some du =>
        simp only [hdu] at h
        cases hv : segValue cfg loc du t with
        | none =>
          simp only [hv] at h
          exact Option.noConfusion h
        | some v =>
          simp only [hv] at h
          rcases ih (0 + 1) (dictInsert acc key v) m h p hp with h2 | h2
          · exact Or.inl h2
          · rcases mem_dictInsert acc key v p h2 with rfl | h3
            · exact Or.inl (Or.inl rfl)
            · exact Or.inr h3
    | succ j =>
      rcases hsec : cfg.secondaryKey with - | s
      · rw [processSegsAux, segKey_succ_none cfg key j hsec] at h
        rcases ih (j + 1 + 1) acc m h p hp with h2 | h2
        · rcases h2 with h2a | h2b
          · exact Or.inl (Or.inl h2a)
          · rw [hsec] at h2b
            exact Or.inl (Or.inr h2b)
        · exact Or.inr h2
      · rw [processSegsAux, segKey_succ_some cfg key s j hsec] at h
        simp only [] at h
        cases hdu : definedUnit cfg (j + 1) with
        | none =>
          simp only [hdu] at h
          exact Option.noConfusion h
        | some du =>
          simp only [hdu] at h
          cases hv : segValue cfg loc du t with
          | none =>
            simp only [hv] at h
            exact Option.noConfusion h
          | some v =>
            simp only [hv] at h
            rcases ih (j + 1 + 1) (dictInsert acc s v) m h p hp with h2 | h2
            · rcases h2 with h2a | h2b
              · exact Or.inl (Or.inl h2a)
              · rw [hsec] at h2b
                exact Or.inl (Or.inr h2b)
            · rcases mem_dictInsert acc s v p h2 with rfl | h3
              · exact Or.inl (Or.inr rfl)
              · exact Or.inr h3

/-- C3, counterexample configuration: one declared secondary key `S`. -/
def cfgC3 : RegionCfg := ⟨none, none, none, some "S", none, .noneU⟩

/-- C3, counterexample: with one declared secondary key and two secondary
segments, the extra segment is not discarded — it overwrites the secondary
key, which ends bound to `c` instead of `b`. -/
theorem claim_C3_counterexample :
    processNumericValues cfgC3 locDE "K" "a(b(c".toList =
      some [("K", "a".toList), ("S", "c".toList)] ∧
    dictGet [("K", "a".toList), ("S", "c".toList)] "S" ≠ some "b".toList := by
  decide

theorem processSegsAux_last (cfg : RegionCfg) (loc : NumLocale) (key s : String)
    (du : Option (List Char)) (hsec : cfg.secondaryKey = some s) (hne : s ≠ key)
    (hdu : ∀ j, definedUnit cfg j = some du) :
    ∀ (mid : List (List Char)) (tl : List Char) (i : ℕ)
      (acc m : List (String × List Char)),
      processSegsAux cfg loc key (mid ++ [tl]) (i + 1) acc = some m →
      dictGet m s = segValue cfg loc du tl ∧ dictGet m key = dictGet acc key := by
  intro mid
  induction mid with
  | nil =>
    intro tl i acc m h
    rw [List.nil_append, processSegsAux, segKey_succ_some cfg key s i hsec] at h
    simp only [hdu (i + 1)] at h
    cases hv : segValue cfg loc du tl with
    | none =>
      simp only [hv] at h
      exact Option.noConfusion h
    | some v =>
      simp only [hv, pSA_nil] at h
      cases h
      constructor
      · rw [dictGet_insert_self]
      · exact dictGet_insert_ne acc key s v (fun hh => hne hh.symm)
  | cons t mid ih =>
    intro tl i acc m h
    rw [List.cons_append, processSegsAux, segKey_succ_some cfg key s i hsec] at h
    simp only [hdu (i + 1)] at h
    cases hv : segValue cfg loc du t with
    | none =>
      simp only [hv] at h
      exact Option.noConfusion h
    | some v =>
      simp only [hv] at h
      obtain ⟨h1, h2⟩ := ih tl (i + 1) (dictInsert acc s v) m h
      exact ⟨h1, h2.trans (dictGet_insert_ne acc key s v (fun hh => hne hh.symm))⟩

/-- C3, amended: the splitter maps the primary segment to the region key;
every later segment is mapped to the single declared secondary key, so
when more secondary segments exist than declared secondary keys the extras
are not discarded — each one overwrites the secondary key and the last
secondary segment wins (extras are only dropped when no secondary key is
declared at all, per C10). -/
theorem claim_C3_theorem :
    ∀ (cfg : RegionCfg) (loc : NumLocale) (key s : String)
      (du : Option (List Char)) (text t0 tl : List Char) (mid : List (List Char))
      (m : List (String × List Char)),
      cfg.secondaryKey = some s → s ≠ key →
      (∀ j, definedUnit cfg j = some du) →
      regionTexts text = t0 :: mid ++ [tl] →
      processNumericValues cfg loc key text = some m →
      dictGet m s = segValue cfg loc du tl ∧
      dictGet m key = segValue cfg loc du t0 := by
  intro cfg loc key s du text t0 tl mid m hsec hne hdu hsplit hproc
  rw [processNumericValues, hsplit] at hproc
  simp only [processSegsAux, segKey_zero, hdu 0] at hproc
  cases hv0 : segValue cfg loc du t0 with
  | none =>
    simp only [hv0] at hproc
    exact Option.noConfusion hproc
  | some v0 =>
    simp only [hv0] at hproc
    obtain ⟨h1, h2⟩ :=
      processSegsAux_last cfg loc key s du hsec hne hdu mid tl 0
        (dictInsert [] key v0) m hproc
    refine ⟨h1, ?_⟩
    rw [h2, dictGet_insert_self]

theorem claim_C3_witness :
    dictGet [("K", "a".toList), ("S", "c".toList)] "S" =
      segValue cfgC3 locDE none "c".toList ∧
    dictGet [("K", "a".toList), ("S", "c".toList)] "K" =
      segValue cfgC3 locDE none "a".toList :=
  claim_C3_theorem cfgC3 locDE "K" "S" none "a(b(c".toList "a".toList "c".toList
    ["b".toList] [("K", "a".toList), ("S", "c".toList)] rfl (by decide)
    (fun j => rfl) (by decide) (by decide)

/-- C10: whenever `process_numeric_values` returns a mapping, its keys all
come from the set {region key, declared secondary key}; with no declared
secondary key, every bracketed segment after the first is dropped and only
the region key can appear.  (Values are strings by construction: every
stored value has type `List Char` in this embedding, mirroring that every
branch of the source stores a `str`.) -/
theorem claim_C10_theorem :
    ∀ (cfg : RegionCfg) (loc : NumLocale) (key : String) (text : List Char)
      (m : List (String × List Char)),
      processNumericValues cfg loc key text = some m →
      (∀ p ∈ m, p.1 = key ∨ cfg.secondaryKey = some p.1) ∧
      (cfg.secondaryKey = none → ∀ p ∈ m, p.1 = key) := by
  intro cfg loc key text m h
  have h1 : ∀ p ∈ m, p.1 = key ∨ cfg.secondaryKey = some p.1 := by
    intro p hp
    rcases processSegsAux_keys cfg loc key (regionTexts text) 0 [] m h p hp
      with h2 | h2
    · exact h2
    · simp at h2
  refine ⟨h1, ?_⟩
  intro hsec p hp
  rcases h1 p hp with h2 | h2
  · exact h2
  · rw [hsec] at h2
    exact Option.noConfusion h2

theorem claim_C10_witness :
    (∀ p ∈ [("K", "x".toList)], p.1 = "K" ∨ cfgPlain.secondaryKey = some p.1) ∧
    (cfgPlain.secondaryKey = none → ∀ p ∈ [("K", "x".toList)], p.1 = "K") :=
  claim_C10_theorem cfgPlain locDE "K" "x(y".toList [("K", "x".toList)] (by decide)

/-- The region-level gate: when the declared mandatory texts do not all
occur in a segment, that segment's working text is cleared and the segment
contributes the empty value whatever the unit hint is. -/
theorem segValue_gate_fail (cfg : RegionCfg) (loc : NumLocale)
    (du : Option (List Char)) (t : List Char) (ts : List (List Char))
    (hm : cfg.mandatoryText = some ts)
    (hall : ts.all (fun t2 => pyInB t2 t) = false) :
    segValue cfg loc du t = some [] := by
  simp only [segValue, hm, hall, Bool.false_eq_true, if_false]
  cases du with
  | none => rfl
  | some u =>
    show (if u ≠ "None".toList then (some [] : Option (List Char)) else some []) =
      some []
    split <;> rfl

theorem processSegsAux_nil_vals (cfg : RegionCfg) (loc : NumLocale) (key : String) :
    ∀ (segs : List (List Char)) (i : ℕ) (acc m : List (String × List Char)),
      (∀ t2 ∈ segs, ∀ du, segValue cfg loc du t2 = some []) →
      (∀ p ∈ acc, p.2 = ([] : List Char)) →
      processSegsAux cfg loc key segs i acc = some m →
      ∀ p ∈ m, p.2 = ([] : List Char) := by
  intro segs
  induction segs with
  | nil =>
    intro i acc m _ hacc h
    rw [pSA_nil] at h
    cases h
    exact hacc
  | cons t rest ih =>
    intro i acc m hsegs hacc h
    have hrest : ∀ t2 ∈ rest, ∀ du, segValue cfg loc du t2 = some [] :=
      fun t2 ht2 du => hsegs t2 (List.mem_cons_of_mem t ht2) du
    have ht : ∀ du, segValue cfg loc du t = some [] :=
      fun du => hsegs t (List.mem_cons_self t rest) du
    cases i with
    | zero =>
      simp only [processSegsAux, segKey_zero] at h
      cases hdu : definedUnit cfg 0 with
      | none =>
        simp only [hdu] at h
        exact Option.noConfusion h
      | some du =>
        simp only [hdu, ht du] at h
        refine ih (0 + 1) (dictInsert acc key []) m hrest ?_ h
        intro p hp
        rcases mem_dictInsert acc key [] p hp with rfl | h2
        · rfl
        · exact hacc p h2
    | succ j =>
      rcases hsec : cfg.secondaryKey with - | s
      · rw [processSegsAux, segKey_succ_none cfg key j hsec] at h
        exact ih (j + 1 + 1) acc m hrest hacc h
      · rw [processSegsAux, segKey_succ_some cfg key s j hsec] at h
        cases hdu : definedUnit cfg (j + 1) with
        | none =>
          simp only [hdu] at h
          exact Option.noConfusion h
        | some du =>
          simp only [hdu, ht du] at h
          refine ih (j + 1 + 1) (dictInsert acc s []) m hrest ?_ h
          intro p hp
          rcases mem_dictInsert acc s [] p hp with rfl | h2
          · rfl
          · exact hacc p h2

/-- C5: if any declared mandatory substring of a region is missing from
the raw recognized text, then it is missing from every bracketed segment
(each is a substring of the raw text), so every entry the region returns
carries the empty-string value — no numeric value is produced for any of
its keys. -/
theorem claim_C5_theorem :
    ∀ (cfg : RegionCfg) (loc : NumLocale) (key : String) (text : List Char)
      (ts : List (List Char)) (t : List Char) (m : List (String × List Char)),
      cfg.mandatoryText = some ts → t ∈ ts → ¬ t <:+: text →
      processNumericValues cfg loc key text = some m →
      ∀ p ∈ m, p.2 = ([] : List Char) := by
  intro cfg loc key text ts t m hm ht hnot hproc
  have hseg : ∀ t2 ∈ regionTexts text, ∀ du, segValue cfg loc du t2 = some [] := by
    intro t2 ht2 du
    refine segValue_gate_fail cfg loc du t2 ts hm ?_
    have hni : ¬ t <:+: t2 := fun hsub =>
      hnot (hsub.trans (mem_regionTexts_sub text t2 ht2))
    rw [Bool.eq_false_iff]
    intro hall
    rw [List.all_eq_true] at hall
    have h3 := hall t ht
    simp only [pyInB, decide_eq_true_eq] at h3
    exact hni h3
  exact processSegsAux_nil_vals cfg loc key (regionTexts text) 0 [] m hseg
    (by simp) hproc

/-- A region with a mandatory text `Z` and a secondary key. -/
def cfgC5 : RegionCfg := ⟨none, none, none, some "S", some ["Z".toList], .noneU⟩

theorem claim_C5_witness :
    processNumericValues cfgC5 locDE "K" "a(b".toList =
      some [("K", []), ("S", [])] ∧
    ("S", ([] : List Char)).2 = ([] : List Char) :=
  ⟨by decide,
   claim_C5_theorem cfgC5 locDE "K" "a(b".toList ["Z".toList] "Z".toList
     [("K", []), ("S", [])] rfl (by decide) (by decide) (by decide)
     ("S", []) (by decide)⟩

/-! ## C6: idempotence of numeric normalization -/

theorem pyReplaceF_self (p : List Char) (fuel : ℕ) :
    ∀ l : List Char, pyReplaceF p p fuel l = l := by
  induction fuel with
  | zero => intro l; rfl
  | succ fuel ih =>
    intro l
    match l with
    | [] => rfl
    | a :: rest =>
      rw [pyReplaceF]
      by_cases hc : p ≠ [] ∧ p <+: (a :: rest)
      · rw [if_pos hc]
        obtain ⟨t, ht⟩ := hc.2
        rw [← ht, List.drop_left, ih t]
      · rw [if_neg hc, ih rest]

theorem pyReplace_self (r l : List Char) : pyReplace r r l = l :=
  pyReplaceF_self r l.length l

/-- The German-locale configuration of the counterexample: decimal
override `,`, no other options. -/
def cfgC6 : RegionCfg := ⟨some ",".toList, none, none, none, none, .noneU⟩

/-- C6, counterexample: normalizing `12,5kWh` under the shipped German
locale yields the string `12.5` (value 12.5), but re-normalizing `12.5`
with the same configuration strips the `.` as a thousands separator and
returns `125` — a different numeric value. -/
theorem claim_C6_counterexample :
    cleanNumValue cfgC6 locDE "12,5kWh".toList = some "12.5".toList ∧
    cleanNumValue cfgC6 locDE "12.5".toList = some "125".toList ∧
    getNumericValue locDE "12,5".toList = ⟨125, 1⟩ ∧
    getNumericValue locDE "125".toList = ⟨125, 0⟩ ∧
    Dec.val ⟨125, 1⟩ ≠ Dec.val ⟨125, 0⟩ := by
  refine ⟨by decide, by decide, by decide, by decide, ?_⟩
  simp only [Dec.val]
  norm_num

/-- An `en_US`-style numeric locale: decimal point `.`, thousands
separator `,`. -/
def locEN : NumLocale := ⟨".".toList, ",".toList⟩

/-- C6, amended: re-normalization is the identity — hence value-preserving
— exactly when separator cleanup leaves the already-normalized string
unchanged and it carries no unit suffix (normalization always strips the
unit).  Cleanup is the identity whenever the decimal override is absent,
equal to the locale decimal point, or absent from the string, and the
thousands separator does not occur in the string; under the shipped German
locale the thousands separator is `.`, which occurs in every fractional
output, so idempotence fails there (see the counterexample). -/
theorem claim_C6_theorem :
    (∀ (cfg : RegionCfg) (loc : NumLocale) (s : List Char),
        pyStrip s = s → cleanNumericSeparators cfg loc s = s →
        stripUnit s = none → cleanNumValue cfg loc s = some s) ∧
    (∀ (cfg : RegionCfg) (loc : NumLocale) (s : List Char),
        (cfg.decpt = none ∨ cfg.decpt = some loc.real_decpt ∨
          ∃ d, cfg.decpt = some d ∧ ¬ d <:+: s) →
        ¬ loc.real_thpt <:+: s →
        cleanNumericSeparators cfg loc s = s) := by
  constructor
  · intro cfg loc s hstrip hsep hunit
    simp only [cleanNumValue, hstrip, hsep, hunit]
  · intro cfg loc s hd hthp
    simp only [cleanNumericSeparators]
    have h1 : (match cfg.decpt with
        | some d => pyReplace d loc.real_decpt s
        | none => s) = s := by
      rcases hd with h | h | ⟨d, h, hnd⟩
      · rw [h]
      · rw [h]
        exact pyReplace_self loc.real_decpt s
      · rw [h]
        exact pyReplace_not_occur d loc.real_decpt s hnd
    rw [h1]
    exact pyReplace_not_occur loc.real_thpt [] s hthp

theorem claim_C6_witness :
    cleanNumValue cfgC6 locEN "12.5".toList = some "12.5".toList ∧
    cleanNumericSeparators cfgC6 locEN "12.5".toList = "12.5".toList :=
  ⟨claim_C6_theorem.1 cfgC6 locEN "12.5".toList (by decide) (by decide) (by decide),
   claim_C6_theorem.2 cfgC6 locEN "12.5".toList
     (Or.inr (Or.inr ⟨",".toList, rfl, by decide⟩)) (by decide)⟩

/-! ## C7: the temperature pattern -/

/-- The ASCII digit character for `n < 10`. -/
def digitChar (n : ℕ) : Char := Char.ofNat (48 + n)

/-- C7, counterexample: a single digit followed by `°C` matches none of
the three patterns — `5°C` is not classified as a temperature but stored
verbatim as text (the group of the temperature pattern needs a digit after
the optional comma, hence at least two digits in total). -/
theorem claim_C7_counterexample :
    tempSearch "5°C".toList = none ∧
    energySearch "5°C".toList = none ∧
    powerSearch "5°C".toList = none ∧
    processNumericValues cfgPlain locDE "K" "5°C".toList =
      some [("K", "5°C".toList)] := by
  decide

/-- C7, amended: the temperature pattern requires 1–2 digits, an optional
decimal comma and then one further mandatory digit (so two or three digits
in total, optional leading minus) before the degree unit; any two digits
before `°C` match — with or without a comma or minus — and are classified
as a temperature (checked before the energy and power patterns), while a
single digit before `°C` never matches. -/
theorem claim_C7_theorem :
    ∀ a : ℕ, a < 10 → ∀ b : ℕ, b < 10 →
      tempSearch [digitChar a, digitChar b, '°', 'C'] =
        some [digitChar a, digitChar b] ∧
      tempSearch [digitChar a, digitChar b, ',', digitChar b, '°', 'C'] =
        some [digitChar a, digitChar b, ',', digitChar b] ∧
      tempSearch ['-', digitChar a, digitChar b, '°', 'C'] =
        some ['-', digitChar a, digitChar b] ∧
      tempSearch [digitChar b, '°', 'C'] = none ∧
      segValue cfgPlain locDE none [digitChar a, digitChar b, '°', 'C'] =
        cleanNumValue cfgPlain locDE ([digitChar a, digitChar b] ++ "°C".toList) := by
  decide

theorem claim_C7_witness :
    tempSearch [digitChar 4, digitChar 5, '°', 'C'] =
      some [digitChar 4, digitChar 5] ∧
    tempSearch [digitChar 4, digitChar 5, ',', digitChar 5, '°', 'C'] =
      some [digitChar 4, digitChar 5, ',', digitChar 5] ∧
    tempSearch ['-', digitChar 4, digitChar 5, '°', 'C'] =
      some ['-', digitChar 4, digitChar 5] ∧
    tempSearch [digitChar 5, '°', 'C'] = none ∧
    segValue cfgPlain locDE none [digitChar 4, digitChar 5, '°', 'C'] =
      cleanNumValue cfgPlain locDE ([digitChar 4, digitChar 5] ++ "°C".toList) :=
  claim_C7_theorem 4 (by norm_num) 5 (by norm_num)

/-! ## C8: the mandatory-decimal-places heuristic -/

/-- C8: with a declared mandatory decimal-place count `n` and no
`maxValue`, if the cleaned unit-stripped numeral shows no locale decimal
point (its split on the decimal point has at most one part), the parsed
and scaled number is divided by `10 ^ n` before rendering; dividing an
exact decimal by `10 ^ n` divides its rational value by `10 ^ n`. -/
theorem claim_C8_theorem :
    ∀ (cfg : RegionCfg) (loc : NumLocale) (value s2 : List Char) (n mult : ℕ),
      cfg.maxValue = none →
      cfg.mandatoryDecimalPlaces = some n →
      stripUnit (cleanNumericSeparators cfg loc (pyStrip value)) = some (s2, mult) →
      (pySplitOnL loc.real_decpt s2).length ≤ 1 →
      cleanNumValue cfg loc value =
        some (decRepr (decDivPow (decScale (getNumericValue loc s2) mult) n)) ∧
      Dec.val (decDivPow (decScale (getNumericValue loc s2) mult) n) =
        Dec.val (decScale (getNumericValue loc s2) mult) / 10 ^ n := by
  intro cfg loc value s2 n mult hmax hmdp hstripu hlen
  constructor
  · simp only [cleanNumValue, hstripu, hmax, hmdp, if_pos hlen]
  · simp only [Dec.val, decDivPow]
    rw [pow_add, div_div]

/-- The region configuration of the claim's concrete example:
`mandatoryDecimalPlaces = 1`, nothing else. -/
def cfgC8 : RegionCfg := ⟨none, none, some 1, none, none, .noneU⟩

theorem claim_C8_witness :
    cleanNumValue cfgC8 locDE "125°C".toList = some "12.5".toList ∧
    Dec.val (decDivPow (decScale (getNumericValue locDE "125".toList) 1) 1) =
      Dec.val (decScale (getNumericValue locDE "125".toList) 1) / 10 ^ 1 := by
  have h := claim_C8_theorem cfgC8 locDE "125°C".toList "125".toList 1 1 rfl rfl
    (by decide) (by decide)
  exact ⟨by rw [h.1]; decide, h.2⟩
